import Mathlib

set_option maxRecDepth 4000

/-!
Shallow embedding of the GeoValuate AI service: the FastAPI backend endpoint
`find_rera_listings` (request validation, prompt construction, model call,
response sanitization, JSON parsing, pydantic schema validation, error policy),
the health endpoint `read_root`, and the frontend `handleAnalyze` handler.
Strings are modelled as `List Char`; Python `str.strip` / `str.replace` and
`json.loads` are embedded explicitly.
-/

/-- Whitespace characters removed by Python `str.strip()` (the ASCII set). -/
def isPyWs (c : Char) : Bool :=
  c = ' ' || c = '\t' || c = '\n' || c = '\r' || c = '\x0b' || c = '\x0c'

/-- Leading-whitespace removal, the first half of Python `str.strip()`. -/
def dropLeadingWs (l : List Char) : List Char := l.dropWhile isPyWs

/-- Trailing-whitespace removal, the second half of Python `str.strip()`. -/
def dropTrailingWs (l : List Char) : List Char := (l.reverse.dropWhile isPyWs).reverse

/-- Python `text.strip()`: remove leading and trailing whitespace. -/
def pyStrip (l : List Char) : List Char := dropTrailingWs (dropLeadingWs l)

/-- The three-backtick markdown fence marker, the second pattern removed at
line 546 of the endpoint. -/
def fence : List Char := ['\x60', '\x60', '\x60']

/-- The seven-character marker removed first at line 546 of the endpoint. -/
def jsonFence : List Char := ['\x60', '\x60', '\x60', 'j', 's', 'o', 'n']

/-- Python `text.replace(pat, "")` scan for the seven-character marker:
greedy left-to-right removal of non-overlapping occurrences.  `fuel` bounds
the recursion; it is instantiated with the length of the scanned list. -/
def scanJson : Nat → List Char → List Char
  | 0, l => l
  | _+1, [] => []
  | fuel+1, c :: rest =>
    if jsonFence.isPrefixOf (c :: rest) then scanJson fuel ((c :: rest).drop 7)
    else c :: scanJson fuel rest

/-- Python `text.replace(pat, "")` scan for the three-backtick marker. -/
def scanFence : Nat → List Char → List Char
  | 0, l => l
  | _+1, [] => []
  | fuel+1, c :: rest =>
    if fence.isPrefixOf (c :: rest) then scanFence fuel ((c :: rest).drop 3)
    else c :: scanFence fuel rest

/-- Python `text.replace("``` + json", "")` (markers spelled with backticks). -/
def pyReplaceJsonFence (l : List Char) : List Char := scanJson l.length l

/-- Python `text.replace("three backticks", "")`. -/
def pyReplaceFence (l : List Char) : List Char := scanFence l.length l

/-- Line 546 of the endpoint:
`response.text.strip().replace(jsonfence, "").replace(fence, "").strip()`. -/
def sanitize (l : List Char) : List Char :=
  pyStrip (pyReplaceFence (pyReplaceJsonFence (pyStrip l)))

/-- The canonical markdown-fenced wrapping of a model reply body: the
seven-character opening marker, a newline, the body, a newline, the closing
three-backtick marker. -/
def wrapFence (s : List Char) : List Char :=
  jsonFence ++ ('\n' :: (s ++ ('\n' :: fence)))

-- ---------------------------------------------------------------------------
-- JSON values and the embedding of Python json.loads
-- ---------------------------------------------------------------------------

/-- JSON values as produced by Python `json.loads`.  Object fields keep
insertion order with duplicate keys collapsed to the last occurrence, as a
Python dict does.  Numeric literals are kept as lexemes: no claim about this
program depends on numeric semantics. -/
inductive Json where
  | null : Json
  | bool (b : Bool) : Json
  | num (lexeme : List Char) : Json
  | str (s : List Char) : Json
  | arr (elems : List Json) : Json
  | obj (fields : List (List Char × Json)) : Json

/-- Python dict insertion `d[k] = v`: an existing key keeps its position and
gets the new value, a new key is appended. -/
def objInsert (fields : List (List Char × Json)) (k : List Char) (v : Json) :
    List (List Char × Json) :=
  match fields with
  | [] => [(k, v)]
  | (k2, v2) :: rest =>
    if k2 = k then (k, v) :: rest else (k2, v2) :: objInsert rest k v

/-- Python dict lookup on the parsed field list. -/
def lookupField (fields : List (List Char × Json)) (key : List Char) : Option Json :=
  match fields with
  | [] => none
  | (k, v) :: rest => if k = key then some v else lookupField rest key

/-- JSON whitespace accepted by `json.loads` between tokens. -/
def isJsonWs (c : Char) : Bool := c = ' ' || c = '\t' || c = '\n' || c = '\r'

def skipWs (l : List Char) : List Char := l.dropWhile isJsonWs

def hexVal (c : Char) : Option Nat :=
  if '0' ≤ c ∧ c ≤ '9' then some (c.toNat - '0'.toNat)
  else if 'a' ≤ c ∧ c ≤ 'f' then some (c.toNat - 'a'.toNat + 10)
  else if 'A' ≤ c ∧ c ≤ 'F' then some (c.toNat - 'A'.toNat + 10)
  else none

/-- Body of a JSON string literal after the opening quote: returns the decoded
characters and the input after the closing quote.  Handles the JSON escapes,
rejects raw control characters, and decodes `\uXXXX` through `Char.ofNat`
(surrogate pairing is not modelled; no input in this development uses it). -/
def parseStringBody : List Char → Option (List Char × List Char)
  | [] => none
  | c :: rest =>
    if c = '"' then some ([], rest)
    else if c = '\\' then
      match rest with
      | [] => none
      | e :: rest2 =>
        if e = 'u' then
          match rest2 with
          | h1 :: h2 :: h3 :: h4 :: rest3 =>
            match hexVal h1, hexVal h2, hexVal h3, hexVal h4 with
            | some a, some b, some c2, some d2 =>
              match parseStringBody rest3 with
              | some (sv, r) => some (Char.ofNat (((a * 16 + b) * 16 + c2) * 16 + d2) :: sv, r)
              | none => none
            | _, _, _, _ => none
          | _ => none
        else
          match
            (if e = '"' then some '"' else if e = '\\' then some '\\'
             else if e = '/' then some '/' else if e = 'b' then some '\x08'
             else if e = 'f' then some '\x0c' else if e = 'n' then some '\n'
             else if e = 'r' then some '\r' else if e = 't' then some '\t'
             else none : Option Char) with
          | some d =>
            match parseStringBody rest2 with
            | some (sv, r) => some (d :: sv, r)
            | none => none
          | none => none
    else if c.toNat < 32 then none
    else
      match parseStringBody rest with
      | some (sv, r) => some (c :: sv, r)
      | none => none

/-- Optional fraction part of a JSON number. -/
def parseFrac : List Char → Option (List Char × List Char)
  | '.' :: r =>
    let fd := r.takeWhile Char.isDigit
    if fd.isEmpty then none else some ('.' :: fd, r.dropWhile Char.isDigit)
  | l => some ([], l)

/-- Optional exponent part of a JSON number. -/
def parseExp : List Char → Option (List Char × List Char)
  | c :: r =>
    if c = 'e' ∨ c = 'E' then
      let sr : List Char × List Char :=
        match r with
        | '+' :: rr => (['+'], rr)
        | '-' :: rr => (['-'], rr)
        | _ => ([], r)
      let ed := sr.2.takeWhile Char.isDigit
      if ed.isEmpty then none
      else some (c :: (sr.1 ++ ed), sr.2.dropWhile Char.isDigit)
    else some ([], c :: r)
  | [] => some ([], [])

/-- A JSON number lexeme: optional minus, integer part without leading zeros,
optional fraction, optional exponent. -/
def parseNumber (l : List Char) : Option (List Char × List Char) :=
  let sl : List Char × List Char :=
    match l with
    | '-' :: r => (['-'], r)
    | _ => ([], l)
  let ip := sl.2.takeWhile Char.isDigit
  if ip.isEmpty then none
  else if 1 < ip.length ∧ ip.head? = some ('0') then none
  else
    match parseFrac (sl.2.dropWhile Char.isDigit) with
    | some (fp, r2) =>
      match parseExp r2 with
      | some (ep, r3) => some (sl.1 ++ ip ++ fp ++ ep, r3)
      | none => none
    | none => none

/-- Parsing modes: a single value, the tail of an array after its first
element, or the tail of an object after its first field. -/
inductive PMode where
  | value : PMode
  | arrTail (acc : List Json) : PMode
  | objTail (acc : List (List Char × Json)) : PMode

/-- Recursive-descent JSON parser mirroring Python `json.loads`.  `fuel`
decreases on every recursive call; the top-level wrapper supplies enough. -/
def parseP : Nat → PMode → List Char → Option (Json × List Char)
  | 0, _, _ => none
  | fuel+1, PMode.value, l =>
    let l1 := skipWs l
    if ("null".toList).isPrefixOf l1 then some (Json.null, l1.drop 4)
    else if ("true".toList).isPrefixOf l1 then some (Json.bool true, l1.drop 4)
    else if ("false".toList).isPrefixOf l1 then some (Json.bool false, l1.drop 5)
    else
      match l1 with
      | '"' :: rest =>
        match parseStringBody rest with
        | some (sv, r) => some (Json.str sv, r)
        | none => none
      | '[' :: rest =>
        let r1 := skipWs rest
        match r1 with
        | ']' :: r2 => some (Json.arr [], r2)
        | _ =>
          match parseP fuel PMode.value r1 with
          | some (j, r2) => parseP fuel (PMode.arrTail [j]) r2
          | none => none
      | '\x7b' :: rest =>
        let r1 := skipWs rest
        match r1 with
        | '\x7d' :: r2 => some (Json.obj [], r2)
        | '"' :: r2 =>
          match parseStringBody r2 with
          | some (k, r3) =>
            match skipWs r3 with
            | ':' :: r4 =>
              match parseP fuel PMode.value r4 with
              | some (v, r5) => parseP fuel (PMode.objTail (objInsert [] k v)) r5
              | none => none
            | _ => none
          | none => none
        | _ => none
      | _ =>
        match parseNumber l1 with
        | some (lex, r) => some (Json.num lex, r)
        | none => none
  | fuel+1, PMode.arrTail acc, l =>
    match skipWs l with
    | ']' :: r2 => some (Json.arr acc.reverse, r2)
    | ',' :: r2 =>
      match parseP fuel PMode.value r2 with
      | some (j, r3) => parseP fuel (PMode.arrTail (j :: acc)) r3
      | none => none
    | _ => none
  | fuel+1, PMode.objTail acc, l =>
    match skipWs l with
    | '\x7d' :: r2 => some (Json.obj acc, r2)
    | ',' :: r2 =>
      match skipWs r2 with
      | '"' :: r3 =>
        match parseStringBody r3 with
        | some (k, r4) =>
          match skipWs r4 with
          | ':' :: r5 =>
            match parseP fuel PMode.value r5 with
            | some (v, r6) => parseP fuel (PMode.objTail (objInsert acc k v)) r6
            | none => none
          | _ => none
        | none => none
      | _ => none
    | _ => none

/-- Python `json.loads`: parse one JSON value, allow trailing whitespace,
reject anything else. -/
def parseJsonTop (l : List Char) : Option Json :=
  match parseP (l.length + 1) PMode.value l with
  | some (j, rest) => if (skipWs rest).isEmpty then some j else none
  | none => none

-- ---------------------------------------------------------------------------
-- The backend data model (pydantic models of backend/main.py)
-- ---------------------------------------------------------------------------

/-- Model `ReraListing` (lines 467-471): four required string fields. -/
structure ReraListing where
  project_name : List Char
  developer : List Char
  details : List Char
  source_url : List Char
  deriving DecidableEq

/-- Model `ReraResponse` (lines 473-474): a list of listings. -/
structure ReraResponse where
  listings : List ReraListing
  deriving DecidableEq

/-- Outcome of the one external SDK call `model.generate_content(prompt)`:
either a reply whose `.text` is returned, or a raised exception carrying an
arbitrary message. -/
inductive ModelOutcome where
  | reply (text : List Char) : ModelOutcome
  | raise (message : List Char) : ModelOutcome

/-- An HTTP response of the service: a 200 with a validated body, or an
error status with a detail message. -/
inductive HttpResponse where
  | success (body : ReraResponse) : HttpResponse
  | failure (status : Nat) (detail : List Char) : HttpResponse
  deriving DecidableEq

def HttpResponse.status : HttpResponse → Nat
  | success _ => 200
  | failure s _ => s

def projectNameKey : List Char := ("project_name".toList)
def developerKey : List Char := ("developer".toList)
def detailsKey : List Char := ("details".toList)
def sourceUrlKey : List Char := ("source_url".toList)
def listingsKey : List Char := ("listings".toList)
def addressKey : List Char := ("address".toList)

/-- The fixed detail message of the single `HTTPException` (line 555). -/
def genericDetail : List Char :=
  ("An error occurred while communicating with the AI model.".toList)

/-- Representative message of FastAPI request-validation errors (the 422
response body carries a structured error list; only its occurrence matters
here, so it is modelled by its message text). -/
def validationDetail : List Char := ("field required".toList)

/-- A JSON value accepted for a pydantic `str` field.  Extra fields are
handled by lookup; a missing or non-string value fails validation. -/
def asStr : Option Json → Option (List Char)
  | some (Json.str sv) => some sv
  | _ => none

/-- Pydantic validation of one `ReraListing` from a parsed JSON value:
all four declared fields are required strings, unknown fields are ignored
(the default pydantic behaviour). -/
def validateListing : Json → Option ReraListing
  | Json.obj f =>
    match asStr (lookupField f projectNameKey), asStr (lookupField f developerKey),
          asStr (lookupField f detailsKey), asStr (lookupField f sourceUrlKey) with
    | some a, some b, some c, some d => some ⟨a, b, c, d⟩
    | _, _, _, _ => none
  | _ => none

/-- Validation of every element of the `listings` array; any failing element
rejects the whole list. -/
def validateListings : List Json → Option (List ReraListing)
  | [] => some []
  | j :: rest =>
    match validateListing j, validateListings rest with
    | some r, some rs => some (r :: rs)
    | _, _ => none

/-- Validation `ReraResponse(**response_data)` (line 548): the argument must be a JSON
object (anything else raises), `listings` must be present and be an array of
valid listings; unknown fields are ignored. -/
def validateResponse : Json → Option ReraResponse
  | Json.obj fields =>
    match lookupField fields listingsKey with
    | some (Json.arr items) =>
      match validateListings items with
      | some rs => some ⟨rs⟩
      | none => none
    | _ => none
  | _ => none

/-- Model `AnalysisRequest` (lines 464-465): the request body must be a JSON object
with a required string field `address`; unknown fields are ignored. -/
def parseAnalysisRequest : Json → Option (List Char)
  | Json.obj fields =>
    match lookupField fields addressKey with
    | some (Json.str a) => some a
    | _ => none
  | _ => none

-- ---------------------------------------------------------------------------
-- Prompt construction (RERA_PROMPT.format, lines 506-521 and 540)
-- ---------------------------------------------------------------------------

/-- The part of `RERA_PROMPT` before the `address` placeholder. -/
def promptPart1 : List Char :=
  ("\nYou are a real estate search assistant. Your task is to find RERA-approved residential property listings for a given location in India.\n\n**Location to Search:**\n".toList)

/-- The part of `RERA_PROMPT` between the `address` and `schema` placeholders. -/
def promptPart2 : List Char :=
  ("\n\n**Instructions:**\n1.  Perform a web search to find 3-5 RERA-approved residential projects or land listings currently available in or very near the specified location.\n2.  For each listing, extract the project name, the developer, a brief summary of details, and the source URL.\n3.  If you cannot find any RERA-approved listings, return an empty list.\n\n**Output Format:**\nYour final output MUST be a single, valid JSON object that strictly conforms to this Pydantic schema. Do not include any other text or notes.\n\n".toList)

/-- The part of `RERA_PROMPT` after the `schema` placeholder. -/
def promptPart3 : List Char := ("\n".toList)

/-- Substitution `RERA_PROMPT.format(address=..., schema=...)` (line 540). -/
def buildPrompt (address schema : List Char) : List Char :=
  promptPart1 ++ address ++ promptPart2 ++ schema ++ promptPart3

/-- The JSON-schema text of `ReraResponse` interpolated into the prompt
(lines 535-538).  Its exact characters are irrelevant to every claim: the
prompt is only ever consumed by the uninterpreted model function, so a
representative constant stands for the pydantic-generated text. -/
def schemaJson : List Char :=
  ("\x7b \"title\": \"ReraResponse\", \"required\": [\"listings\"] \x7d".toList)

-- ---------------------------------------------------------------------------
-- The endpoint and the route (lines 524-560)
-- ---------------------------------------------------------------------------

/-- The handler body `find_rera_listings` (lines 526-555), after FastAPI has
accepted the request.  Inputs: whether `GEMINI_API_KEY` is present in the
process environment, the validated `address`, and the external model as a
function from prompt text to outcome.  Output: the HTTP response together
with a flag recording whether `model.generate_content` was invoked.  Every
failure — missing key (lines 530-531), SDK exception, `json.loads` failure,
pydantic validation failure — is caught by the single `except` (lines
553-555) and becomes the fixed 500. -/
def find_rera_listings (keyPresent : Bool) (address : List Char)
    (model : List Char → ModelOutcome) : HttpResponse × Bool :=
  if keyPresent = false then (HttpResponse.failure 500 genericDetail, false)
  else
    match model (buildPrompt address schemaJson) with
    | ModelOutcome.raise _ => (HttpResponse.failure 500 genericDetail, true)
    | ModelOutcome.reply text =>
      match parseJsonTop (sanitize text) with
      | none => (HttpResponse.failure 500 genericDetail, true)
      | some j =>
        match validateResponse j with
        | none => (HttpResponse.failure 500 genericDetail, true)
        | some r => (HttpResponse.success r, true)

/-- The routing layer of `POST /api/find-rera-listings`: FastAPI validates the
JSON request body against `AnalysisRequest` before the handler runs; a body
failing validation is answered with HTTP 422 (`RequestValidationError`) and
the handler — hence the model — is never invoked. -/
def api_route (body : Json) (keyPresent : Bool) (model : List Char → ModelOutcome) :
    HttpResponse × Bool :=
  match parseAnalysisRequest body with
  | none => (HttpResponse.failure 422 validationDetail, false)
  | some addr => find_rera_listings keyPresent addr model

/-- Handler `read_root` (lines 558-560): the health endpoint returns a constant body
with status 200; it reads no environment and cannot fail. -/
def read_root : Nat × Json :=
  (200, Json.obj [(("status".toList),
    Json.str ("GeoValuate AI API (Simple RERA Search) is running".toList))])

/-- FastAPI serialization of the validated response under `response_model`:
fields in declaration order. -/
def reraListingToJson (r : ReraListing) : Json :=
  Json.obj [(projectNameKey, Json.str r.project_name),
            (developerKey, Json.str r.developer),
            (detailsKey, Json.str r.details),
            (sourceUrlKey, Json.str r.source_url)]

def reraResponseToJson (r : ReraResponse) : Json :=
  Json.obj [(listingsKey, Json.arr (r.listings.map reraListingToJson))]

-- ---------------------------------------------------------------------------
-- The client handler handleAnalyze (src/app/page.tsx lines 69-98)
-- ---------------------------------------------------------------------------

/-- The fixed client-side error string (line 93). -/
def fetchErrorMsg : List Char :=
  ("Failed to fetch listings. Please check the backend and try again.".toList)

/-- The component state touched by `handleAnalyze`: the busy flag
`isAnalyzing`, the `listings` state (a JavaScript value: `none` models
`undefined`), and the `error` state. -/
structure ClientState where
  isAnalyzing : Bool
  listings : Option Json
  error : Option (List Char)

/-- Settlement of the one `fetch`: rejection (network failure), or a response
with its `ok` flag and its body parsed by `response.json()` (`none` when the
body is not valid JSON, in which case `response.json()` rejects). -/
inductive FetchOutcome where
  | reject : FetchOutcome
  | respond (ok : Bool) (body : Option Json) : FetchOutcome

/-- The JavaScript member access `data.listings`: on `null` it throws a
TypeError (`none`); on an object it yields the property value or `undefined`
(`some none`); on any other value it yields `undefined`. -/
def jsGetListings : Json → Option (Option Json)
  | Json.null => none
  | Json.obj fields => some (lookupField fields listingsKey)
  | _ => some none

/-- Handler `handleAnalyze` (lines 69-98): with no selected place it alerts and does
nothing; otherwise it sets the busy flag, clears error and listings, issues
exactly one request (counted in the second component), stores `data.listings`
on an ok JSON response, sets the fixed error string on any throw, and always
clears the busy flag in `finally`. -/
def handleAnalyze (selectedPlace : List Char) (st : ClientState) (f : FetchOutcome) :
    ClientState × Nat :=
  if selectedPlace.isEmpty then (st, 0)
  else
    match f with
    | FetchOutcome.respond true (some body) =>
      match jsGetListings body with
      | some lv => (⟨false, lv, none⟩, 1)
      | none => (⟨false, some (Json.arr []), some fetchErrorMsg⟩, 1)
    | _ => (⟨false, some (Json.arr []), some fetchErrorMsg⟩, 1)

-- ---------------------------------------------------------------------------
-- Concrete values used to instantiate and to refute claims
-- ---------------------------------------------------------------------------

/-- The stubbed model reply of the end-to-end spec example. -/
def stubReply : List Char :=
  ("\x7b\"listings\":[\x7b\"project_name\":\"X\",\"developer\":\"Y\",\"details\":\"Z\",\"source_url\":\"http://a\"\x7d]\x7d".toList)

/-- The validated value of `stubReply`. -/
def stubResponse : ReraResponse :=
  ⟨[⟨("X".toList), ("Y".toList), ("Z".toList), ("http://a".toList)⟩]⟩

def erodeAddress : List Char := ("Erode, Tamil Nadu".toList)

/-- A well-formed JSON body one of whose string values contains a
three-backtick fence. -/
def fencedValueBody : List Char :=
  ("\x7b\"details\": \"a\x60\x60\x60b\"\x7d".toList)

/-- A model reply that is valid JSON but whose single listing lacks
`source_url`. -/
def missingFieldReply : List Char :=
  ("\x7b\"listings\":[\x7b\"project_name\":\"X\",\"developer\":\"Y\",\"details\":\"Z\"\x7d]\x7d".toList)

/-- A model reply with all required fields plus extra fields at both levels. -/
def extraFieldsReply : List Char :=
  ("\x7b\"listings\":[\x7b\"project_name\":\"X\",\"developer\":\"Y\",\"details\":\"Z\",\"source_url\":\"http://a\",\"rera_id\":\"R1\"\x7d],\"note\":\"extra\"\x7d".toList)

/-- A model reply with an empty listings array. -/
def emptyListingsReply : List Char := ("\x7b\"listings\": []\x7d".toList)

/-- Extracts the first string field value of a parsed object, used to
distinguish two parse results. -/
def firstStrField : Option Json → List Char
  | some (Json.obj ((_, Json.str v) :: _)) => v
  | _ => []

/-- The initial state of the client component. -/
def clientInit : ClientState := ⟨false, some (Json.arr []), none⟩

-- ---------------------------------------------------------------------------
-- Helper facts about list prefixes, suffixes and infixes
-- ---------------------------------------------------------------------------

theorem infixOfPfx {α : Type} {x y : List α} (h : x <+: y) : x <:+: y := by
  exact List.IsPrefix.isInfix h

theorem infixOfSfx {α : Type} {x y : List α} (h : x <:+ y) : x <:+: y := by
  exact List.IsSuffix.isInfix h

theorem infixTrans {α : Type} {x y z : List α} (h1 : x <:+: y) (h2 : y <:+: z) :
    x <:+: z := h1.trans h2

theorem infixCons {α : Type} {x y : List α} {a : α} (h : x <:+: y) :
    x <:+: a :: y :=
  infixTrans h (infixOfSfx (List.suffix_cons a y))

theorem pfxOfBool {x y : List Char} (h : x.isPrefixOf y) : x <+: y := by
  exact List.isPrefixOf_iff_prefix.mp h

theorem pfxTrans {α : Type} {x y z : List α} (h1 : x <+: y) (h2 : y <+: z) :
    x <+: z := h1.trans h2

theorem pfxTake {α : Type} {x y : List α} (h : x <+: y) : x = y.take x.length := by
  exact List.prefix_iff_eq_take.mp h

theorem takePfx {α : Type} (n : Nat) (y : List α) : y.take n <+: y := by
  exact List.take_prefix n y

/-- A prefix of `s ++ c :: t` containing no `c` is a prefix of `s`. -/
theorem pfxBreak {pat s t : List Char} {c : Char}
    (h : pat <+: s ++ c :: t) (hc : c ∉ pat) : pat <+: s := by
  rcases Nat.lt_or_ge s.length pat.length with hlt | hle
  case inr =>
    have h1 : pat = (s ++ c :: t).take pat.length := pfxTake h
    rw [List.take_append_eq_append_take, Nat.sub_eq_zero_of_le hle,
      List.take_zero, List.append_nil] at h1
    rw [h1]; exact takePfx _ _
  case inl =>
    exfalso
    obtain ⟨u, hu⟩ := h
    have e1 : (pat ++ u)[s.length]? = (s ++ c :: t)[s.length]? := by rw [hu]
    have e2 : (s ++ c :: t)[s.length]? = some c := by
      rw [List.getElem?_append_right (Nat.le_refl s.length)]
      simp
    have e3 : (pat ++ u)[s.length]? = pat[s.length]? := by
      rw [List.getElem?_append, if_pos hlt]
    have e4 : pat[s.length]? = some c := e3.symm.trans (e1.trans e2)
    have e5 : pat[s.length] = c := by
      have h6 := List.getElem?_eq_getElem hlt
      rw [h6] at e4
      exact Option.some.inj e4
    exact hc (e5 ▸ List.getElem_mem hlt)

-- ---------------------------------------------------------------------------
-- Lemmas about the scanners
-- ---------------------------------------------------------------------------

theorem scanJson_nil (fuel : Nat) : scanJson fuel [] = [] := by
  cases fuel <;> rfl

theorem scanFence_nil (fuel : Nat) : scanFence fuel [] = [] := by
  cases fuel <;> rfl

theorem scanJson_fix (fuel : Nat) (l : List Char) (h : ¬ jsonFence <:+: l) :
    scanJson fuel l = l := by
  induction fuel generalizing l with
  | zero => rfl
  | succ fuel ih =>
    cases l with
    | nil => rfl
    | cons c rest =>
      rw [scanJson]
      have hp : ¬ jsonFence.isPrefixOf (c :: rest) := by
        intro hpre
        exact h (infixOfPfx (pfxOfBool hpre))
      rw [if_neg hp, ih rest (fun hi => h (infixCons hi))]

theorem scanFence_fix (fuel : Nat) (l : List Char) (h : ¬ fence <:+: l) :
    scanFence fuel l = l := by
  induction fuel generalizing l with
  | zero => rfl
  | succ fuel ih =>
    cases l with
    | nil => rfl
    | cons c rest =>
      rw [scanFence]
      have hp : ¬ fence.isPrefixOf (c :: rest) := by
        intro hpre
        exact h (infixOfPfx (pfxOfBool hpre))
      rw [if_neg hp, ih rest (fun hi => h (infixCons hi))]

theorem fencePfx_false_of_head {e : Char} (es : List Char) (he : e ≠ '\x60') :
    fence.isPrefixOf (e :: es) = false := by
  have : ('\x60' == e) = false := by
    simp only [beq_eq_false_iff_ne, ne_eq]
    exact fun hx => he hx.symm
  simp [fence, List.isPrefixOf, this]

/-- The scan never moves a backtick to the head: if the input does not start
with a backtick, neither does the output. -/
theorem scanFence_head (fuel : Nat) (x : List Char)
    (h : ∀ e, x.head? = some e → e ≠ '\x60') :
    ∀ e, (scanFence fuel x).head? = some e → e ≠ '\x60' := by
  cases fuel with
  | zero => exact h
  | succ fuel =>
    cases x with
    | nil => intro e he; rw [scanFence_nil] at he; simp at he
    | cons d ds =>
      have hd : d ≠ '\x60' := h d rfl
      rw [scanFence, fencePfx_false_of_head ds hd]
      simp only [Bool.false_eq_true, if_false, List.head?_cons]
      intro e he
      exact (Option.some.inj he) ▸ hd

/-- The scan cannot create a double backtick at the head. -/
theorem scanFence_twoTicks (fuel : Nat) (x : List Char)
    (h : ¬ ['\x60', '\x60'] <+: x) :
    ¬ ['\x60', '\x60'] <+: scanFence fuel x := by
  cases fuel with
  | zero => exact h
  | succ fuel =>
    cases x with
    | nil => rw [scanFence]; exact h
    | cons d ds =>
      by_cases hp : fence.isPrefixOf (d :: ds) = true
      · exfalso
        exact h (pfxTrans ⟨['\x60'], rfl⟩ (pfxOfBool hp))
      · rw [scanFence, if_neg hp]
        intro hq
        rw [List.cons_prefix_cons] at hq
        obtain ⟨hd, hq2⟩ := hq
        obtain ⟨u, hu⟩ := hq2
        have hhead : (scanFence fuel ds).head? = some '\x60' := by
          rw [← hu]; rfl
        have hds : ∀ e, ds.head? = some e → e ≠ '\x60' := by
          intro e he hxe
          apply h
          rw [List.cons_prefix_cons]
          refine ⟨hd, ?_⟩
          cases ds with
          | nil => simp at he
          | cons d2 ds2 =>
            rw [List.cons_prefix_cons]
            have hd2 : d2 = '\x60' := by
              rw [List.head?_cons] at he
              rw [Option.some.inj he]
              exact hxe
            exact ⟨hd2.symm, List.nil_prefix⟩
        exact scanFence_head fuel ds hds '\x60' hhead rfl

/-- Key structural fact: the output of the backtick-fence removal scan
contains no three-backtick fence anywhere. -/
theorem scanFence_noFence (fuel : Nat) (l : List Char) (hlen : l.length ≤ fuel) :
    ¬ fence <:+: scanFence fuel l := by
  induction fuel generalizing l with
  | zero =>
    have : l = [] := List.length_eq_zero.mp (Nat.le_zero.mp hlen)
    subst this
    rw [scanFence_nil]
    intro hinf
    have := hinf.length_le
    simp [fence] at this
  | succ fuel ih =>
    cases l with
    | nil =>
      rw [scanFence_nil]
      intro hinf
      have := hinf.length_le
      simp [fence] at this
    | cons c rest =>
      by_cases hp : fence.isPrefixOf (c :: rest) = true
      · rw [scanFence, if_pos hp]
        apply ih
        simp only [List.length_cons] at hlen ⊢
        simp only [List.length_drop, List.length_cons]
        omega
      · rw [scanFence, if_neg hp]
        intro hinf
        rw [List.infix_cons_iff] at hinf
        rcases hinf with hpre | hinf2
        · rw [show fence = '\x60' :: ['\x60', '\x60'] from rfl,
            List.cons_prefix_cons] at hpre
          obtain ⟨hc, htail⟩ := hpre
          have hnot2 : ¬ ['\x60', '\x60'] <+: rest := by
            intro h2
            apply hp
            rw [List.isPrefixOf_iff_prefix]
            rw [show fence = '\x60' :: ['\x60', '\x60'] from rfl, List.cons_prefix_cons]
            exact ⟨hc, h2⟩
          exact scanFence_twoTicks fuel rest hnot2 htail
        · exact ih rest (by simpa using Nat.le_of_succ_le_succ (by simpa using hlen)) hinf2

/-- Any occurrence of the seven-character marker contains a fence. -/
theorem jsonFence_infix_fence {l : List Char} (h : jsonFence <:+: l) :
    fence <:+: l :=
  infixTrans (infixOfPfx ⟨['j', 's', 'o', 'n'], rfl⟩) h

/-- Scanning for the seven-character marker walks through a fence-free body
followed by a newline and the closing fence without changing anything. -/
theorem scanJson_through (s : List Char) (fuel : Nat)
    (hlen : s.length + 4 ≤ fuel) (hs : ¬ fence <:+: s) :
    scanJson fuel (s ++ ('\n' :: fence)) = s ++ ('\n' :: fence) := by
  induction s generalizing fuel with
  | nil =>
    apply scanJson_fix
    intro hinf
    have := hinf.length_le
    simp [jsonFence, fence] at this
  | cons c s ih =>
    cases fuel with
    | zero => omega
    | succ fuel =>
      rw [List.cons_append, scanJson]
      have hp : ¬ jsonFence.isPrefixOf (c :: (s ++ ('\n' :: fence))) = true := by
        intro hb
        have hpre : jsonFence <+: (c :: s) ++ ('\n' :: fence) := by
          rw [List.cons_append]
          exact pfxOfBool hb
        have hnin : '\n' ∉ jsonFence := by decide
        have : jsonFence <+: c :: s := pfxBreak hpre hnin
        exact hs (infixOfPfx (pfxTrans ⟨['j', 's', 'o', 'n'], rfl⟩ this))
      rw [if_neg hp]
      rw [ih fuel (by simp only [List.length_cons] at hlen; omega)
        (fun hi => hs (infixCons hi))]

/-- Scanning for the fence walks through a fence-free body, then removes
exactly the closing fence. -/
theorem scanFence_through (s : List Char) (fuel : Nat)
    (hlen : s.length + 4 ≤ fuel) (hs : ¬ fence <:+: s) :
    scanFence fuel (s ++ ('\n' :: fence)) = s ++ ['\n'] := by
  induction s generalizing fuel with
  | nil =>
    cases fuel with
    | zero => omega
    | succ fuel =>
      cases fuel with
      | zero => omega
      | succ fuel =>
        rw [List.nil_append, scanFence]
        rw [fencePfx_false_of_head fence (by decide)]
        simp only [Bool.false_eq_true, if_false]
        have hf : scanFence (fuel + 1) fence = [] := by
          rw [show fence = '\x60' :: '\x60' :: '\x60' :: ([] : List Char) from rfl]
          rw [scanFence, if_pos (by decide)]
          exact scanFence_nil fuel
        rw [hf]
        rfl
  | cons c s ih =>
    cases fuel with
    | zero => omega
    | succ fuel =>
      rw [List.cons_append, scanFence]
      have hp : ¬ fence.isPrefixOf (c :: (s ++ ('\n' :: fence))) = true := by
        intro hb
        have hpre : fence <+: (c :: s) ++ ('\n' :: fence) := by
          rw [List.cons_append]
          exact pfxOfBool hb
        have hnin : '\n' ∉ fence := by decide
        exact hs (infixOfPfx (pfxBreak hpre hnin))
      rw [if_neg hp]
      rw [ih fuel (by simp only [List.length_cons] at hlen; omega)
        (fun hi => hs (infixCons hi))]
      rfl

theorem jsonPfx_false_of_head {e : Char} (es : List Char) (he : e ≠ '\x60') :
    jsonFence.isPrefixOf (e :: es) = false := by
  have : ('\x60' == e) = false := by
    simp only [beq_eq_false_iff_ne, ne_eq]
    exact fun hx => he hx.symm
  simp [jsonFence, List.isPrefixOf, this]

theorem boolOfPfx {x y : List Char} (h : x <+: y) : x.isPrefixOf y = true := by
  exact List.isPrefixOf_iff_prefix.mpr h

-- ---------------------------------------------------------------------------
-- Lemmas about Python strip
-- ---------------------------------------------------------------------------

theorem dw_dw (p : Char → Bool) (l : List Char) :
    (l.dropWhile p).dropWhile p = l.dropWhile p := by
  induction l with
  | nil => rfl
  | cons c r ih =>
    by_cases h : p c = true
    · rw [List.dropWhile_cons, if_pos h]; exact ih
    · rw [List.dropWhile_cons, if_neg h, List.dropWhile_cons, if_neg h]

theorem head_dw (p : Char → Bool) (l : List Char) :
    ∀ e, (l.dropWhile p).head? = some e → p e = false := by
  induction l with
  | nil => intro e he; simp at he
  | cons c r ih =>
    by_cases h : p c = true
    · rw [List.dropWhile_cons, if_pos h]; exact ih
    · rw [List.dropWhile_cons, if_neg h]
      intro e he
      rw [List.head?_cons] at he
      have hc : p c = false := by
        cases hb : p c
        · rfl
        · exact absurd hb h
      exact (Option.some.inj he) ▸ hc

theorem dw_eq_self (p : Char → Bool) (l : List Char)
    (h : ∀ e, l.head? = some e → p e = false) : l.dropWhile p = l := by
  cases l with
  | nil => rfl
  | cons c r =>
    rw [List.dropWhile_cons, if_neg]
    have := h c rfl
    simp [this]

theorem pfx_head {x y : List Char} (h : x <+: y) :
    x.head? = none ∨ x.head? = y.head? := by
  cases x with
  | nil => exact Or.inl rfl
  | cons a xs =>
    obtain ⟨u, hu⟩ := h
    right
    rw [← hu]
    rfl

theorem dropTrailingWs_pfx (l : List Char) : dropTrailingWs l <+: l := by
  have h1 : l.reverse.dropWhile isPyWs <:+ l.reverse := List.dropWhile_suffix _
  have h2 := List.reverse_prefix.mpr h1
  rwa [List.reverse_reverse] at h2

theorem pyStrip_idem (l : List Char) : pyStrip (pyStrip l) = pyStrip l := by
  show dropTrailingWs (dropLeadingWs (pyStrip l)) = pyStrip l
  have hhx : ∀ e, (dropLeadingWs l).head? = some e → isPyWs e = false := head_dw _ _
  have hyx : pyStrip l <+: dropLeadingWs l := dropTrailingWs_pfx _
  have hhy : ∀ e, (pyStrip l).head? = some e → isPyWs e = false := by
    intro e he
    rcases pfx_head hyx with h0 | h0
    · rw [h0] at he; simp at he
    · exact hhx e (h0.symm.trans he)
  have h1 : dropLeadingWs (pyStrip l) = pyStrip l := dw_eq_self _ _ hhy
  rw [h1]
  show ((pyStrip l).reverse.dropWhile isPyWs).reverse = pyStrip l
  have h2 : (pyStrip l).reverse = (dropLeadingWs l).reverse.dropWhile isPyWs := by
    show (dropTrailingWs (dropLeadingWs l)).reverse = _
    unfold dropTrailingWs
    rw [List.reverse_reverse]
  rw [h2, dw_dw, ← h2, List.reverse_reverse]

theorem pyStrip_ws_cons (c : Char) (l : List Char) (h : isPyWs c = true) :
    pyStrip (c :: l) = pyStrip l := by
  show dropTrailingWs ((c :: l).dropWhile isPyWs) = _
  rw [List.dropWhile_cons, if_pos h]
  rfl

theorem dropTrailingWs_append_ws (c : Char) (x : List Char) (h : isPyWs c = true) :
    dropTrailingWs (x ++ [c]) = dropTrailingWs x := by
  unfold dropTrailingWs
  have hr : (x ++ [c]).reverse = c :: x.reverse := by simp
  rw [hr, List.dropWhile_cons, if_pos h]

theorem pyStrip_append_ws (c : Char) (h : isPyWs c = true) :
    ∀ l, pyStrip (l ++ [c]) = pyStrip l := by
  intro l
  induction l with
  | nil => simp [pyStrip, dropLeadingWs, dropTrailingWs, List.dropWhile_cons, h]
  | cons a l ih =>
    by_cases ha : isPyWs a = true
    · rw [List.cons_append, pyStrip_ws_cons a _ ha, pyStrip_ws_cons a _ ha, ih]
    · show dropTrailingWs (((a :: l) ++ [c]).dropWhile isPyWs) =
        dropTrailingWs ((a :: l).dropWhile isPyWs)
      rw [List.cons_append, List.dropWhile_cons, if_neg ha,
        List.dropWhile_cons, if_neg ha]
      rw [show a :: (l ++ [c]) = (a :: l) ++ [c] from rfl]
      exact dropTrailingWs_append_ws c (a :: l) h

theorem pyStrip_eq_self {l : List Char} (h1 : l.dropWhile isPyWs = l)
    (h2 : l.reverse.dropWhile isPyWs = l.reverse) : pyStrip l = l := by
  show dropTrailingWs (l.dropWhile isPyWs) = l
  rw [h1]
  unfold dropTrailingWs
  rw [h2, List.reverse_reverse]

theorem pyStrip_within (l : List Char) : pyStrip l <:+: l := by
  have h1 : dropLeadingWs l <:+ l := List.dropWhile_suffix _
  have h2 : pyStrip l <+: dropLeadingWs l := dropTrailingWs_pfx _
  exact infixTrans (infixOfPfx h2) (infixOfSfx h1)

-- ---------------------------------------------------------------------------
-- The two core properties of the sanitization step
-- ---------------------------------------------------------------------------

/-- The sanitization of line 546 is idempotent on every input. -/
theorem sanitize_idem (t : List Char) : sanitize (sanitize t) = sanitize t := by
  have hNoFv : ¬ fence <:+: pyReplaceFence (pyReplaceJsonFence (pyStrip t)) :=
    scanFence_noFence _ _ (Nat.le_refl _)
  have hNoFu : ¬ fence <:+: sanitize t := by
    intro h
    exact hNoFv (infixTrans h (pyStrip_within _))
  show pyStrip (pyReplaceFence (pyReplaceJsonFence (pyStrip (sanitize t)))) = sanitize t
  have e1 : pyStrip (sanitize t) = sanitize t := pyStrip_idem _
  rw [e1]
  have e2 : pyReplaceJsonFence (sanitize t) = sanitize t :=
    scanJson_fix _ _ (fun h => hNoFu (jsonFence_infix_fence h))
  rw [e2]
  have e3 : pyReplaceFence (sanitize t) = sanitize t := scanFence_fix _ _ hNoFu
  rw [e3]
  exact e1

/-- Sanitizing a canonically markdown-fence-wrapped body whose text contains no
three-backtick fence yields exactly the stripped body. -/
theorem sanitize_wrapFence {s : List Char} (hs : ¬ fence <:+: s) :
    sanitize (wrapFence s) = pyStrip s := by
  have hcons : wrapFence s =
      '\x60' :: '\x60' :: '\x60' :: 'j' :: 's' :: 'o' :: 'n' ::
        ('\n' :: (s ++ ('\n' :: fence))) := rfl
  -- step 1: the outer strip leaves the wrapped text unchanged
  have hh1 : (wrapFence s).dropWhile isPyWs = wrapFence s := by
    rw [hcons, List.dropWhile_cons, if_neg (by decide)]
  have hrev : (wrapFence s).reverse =
      (((fence.reverse ++ ['\n']) ++ s.reverse) ++ ['\n']) ++ jsonFence.reverse := by
    show (jsonFence ++ ('\n' :: (s ++ ('\n' :: fence)))).reverse = _
    rw [List.reverse_append, List.reverse_cons, List.reverse_append, List.reverse_cons]
  have hh2 : (wrapFence s).reverse.dropWhile isPyWs = (wrapFence s).reverse := by
    apply dw_eq_self
    intro e he
    rw [hrev, show fence.reverse = '\x60' :: ['\x60', '\x60'] from rfl] at he
    have : e = '\x60' := (Option.some.inj he).symm
    rw [this]
    decide
  have step1 : pyStrip (wrapFence s) = wrapFence s := pyStrip_eq_self hh1 hh2
  -- step 2: removing the seven-character marker eats the opening marker and
  -- passes through the rest
  have hlen1 : (wrapFence s).length = s.length + 12 := by
    rw [hcons]
    simp [fence]
  have step2 : pyReplaceJsonFence (wrapFence s) = '\n' :: (s ++ ('\n' :: fence)) := by
    show scanJson (wrapFence s).length (wrapFence s) = _
    rw [hlen1]
    rw [hcons]
    have hpos : jsonFence.isPrefixOf ('\x60' :: '\x60' :: '\x60' :: 'j' :: 's' :: 'o' :: 'n' ::
        ('\n' :: (s ++ ('\n' :: fence)))) = true :=
      boolOfPfx ⟨'\n' :: (s ++ ('\n' :: fence)), rfl⟩
    rw [scanJson, if_pos hpos]
    rw [show (('\x60' :: '\x60' :: '\x60' :: 'j' :: 's' :: 'o' :: 'n' ::
      ('\n' :: (s ++ ('\n' :: fence)))).drop 7) = '\n' :: (s ++ ('\n' :: fence)) from rfl]
    rw [scanJson, jsonPfx_false_of_head _ (by decide)]
    simp only [Bool.false_eq_true, if_false]
    rw [scanJson_through s (s.length + 10) (by omega) hs]
  -- step 3: removing the fence eats exactly the closing fence
  have hlen2 : ('\n' :: (s ++ ('\n' :: fence))).length = s.length + 5 := by
    simp [fence]
  have step3 : pyReplaceFence ('\n' :: (s ++ ('\n' :: fence))) = '\n' :: (s ++ ['\n']) := by
    show scanFence ('\n' :: (s ++ ('\n' :: fence))).length _ = _
    rw [hlen2]
    rw [scanFence, fencePfx_false_of_head _ (by decide)]
    simp only [Bool.false_eq_true, if_false]
    rw [scanFence_through s (s.length + 4) (Nat.le_refl _) hs]
  -- step 4: the final strip removes the two leftover newlines
  show pyStrip (pyReplaceFence (pyReplaceJsonFence (pyStrip (wrapFence s)))) = pyStrip s
  rw [step1, step2, step3]
  rw [pyStrip_ws_cons '\n' _ (by decide)]
  exact pyStrip_append_ws '\n' (by decide) s

-- ---------------------------------------------------------------------------
-- Validation helper lemmas
-- ---------------------------------------------------------------------------

theorem validateListing_obj_none (f : List (List Char × Json))
    (h : lookupField f projectNameKey = none ∨ lookupField f developerKey = none ∨
         lookupField f detailsKey = none ∨ lookupField f sourceUrlKey = none) :
    validateListing (Json.obj f) = none := by
  rcases h with h | h | h | h <;>
  · cases h1 : asStr (lookupField f projectNameKey) <;>
    cases h2 : asStr (lookupField f developerKey) <;>
    cases h3 : asStr (lookupField f detailsKey) <;>
    cases h4 : asStr (lookupField f sourceUrlKey) <;>
      simp_all [validateListing, asStr]

theorem validateListings_none {items : List Json} {j : Json}
    (hmem : j ∈ items) (hj : validateListing j = none) :
    validateListings items = none := by
  induction items with
  | nil => cases hmem
  | cons a rest ih =>
    rcases List.mem_cons.mp hmem with rfl | hm
    · simp [validateListings, hj]
    · cases h1 : validateListing a <;> simp [validateListings, h1, ih hm]

theorem validateListings_forall2 {items : List Json} {rs : List ReraListing}
    (h : List.Forall₂ (fun item r => ∃ f, item = Json.obj f ∧
      lookupField f projectNameKey = some (Json.str r.project_name) ∧
      lookupField f developerKey = some (Json.str r.developer) ∧
      lookupField f detailsKey = some (Json.str r.details) ∧
      lookupField f sourceUrlKey = some (Json.str r.source_url)) items rs) :
    validateListings items = some rs := by
  induction h with
  | nil => rfl
  | cons hrel hrest ih =>
    rename_i item r l1 l2
    obtain ⟨f, rfl, h1, h2, h3, h4⟩ := hrel
    have hv : validateListing (Json.obj f) = some r := by
      simp [validateListing, h1, h2, h3, h4, asStr]
    simp [validateListings, hv, ih]

-- ---------------------------------------------------------------------------
-- Claim theorems
-- ---------------------------------------------------------------------------

/-- Claim C1, counterexample: the sanitization is not lossless for a
well-formed JSON body whose string value contains a three-backtick fence —
the inner fence is removed, so the fence-wrapped reply parses to a different
value than the unwrapped body. -/
theorem sanitize_not_lossless_cx :
    parseJsonTop (sanitize (wrapFence fencedValueBody)) ≠ parseJsonTop fencedValueBody := by
  intro h
  exact absurd (congrArg firstStrField h) (by decide)

/-- Claim C1, amended: for every well-formed JSON body containing no
three-backtick fence substring (and carrying no surrounding whitespace of its
own), sanitizing the markdown-fence-wrapped reply returns exactly the body,
hence the same parsed JSON value as parsing the body directly; and the
sanitization is idempotent on every input. -/
theorem sanitize_lossless_and_idem :
    (∀ s : List Char, ¬ fence <:+: s → pyStrip s = s →
      sanitize (wrapFence s) = s ∧
      parseJsonTop (sanitize (wrapFence s)) = parseJsonTop s) ∧
    (∀ t : List Char, sanitize (sanitize t) = sanitize t) := by
  constructor
  · intro s hs hstrip
    have h := sanitize_wrapFence hs
    rw [hstrip] at h
    exact ⟨h, by rw [h]⟩
  · exact sanitize_idem

/-- Witness for C1 at the concrete stub body. -/
theorem sanitize_lossless_witness :
    sanitize (wrapFence stubReply) = stubReply ∧
    parseJsonTop (sanitize (wrapFence stubReply)) = parseJsonTop stubReply :=
  sanitize_lossless_and_idem.1 stubReply (by decide) (by decide)

/-- Claim C2, counterexample: a request body without `address` is answered
with HTTP 422 by the framework validation layer — a status other than 200
and 500 — so the claim as stated fails. -/
theorem route_not_only_200_500 :
    (api_route (Json.obj []) true (fun _ => ModelOutcome.reply [])).1
        = HttpResponse.failure 422 validationDetail ∧
    ((api_route (Json.obj []) true (fun _ => ModelOutcome.reply [])).1).status ≠ 200 ∧
    ((api_route (Json.obj []) true (fun _ => ModelOutcome.reply [])).1).status ≠ 500 :=
  ⟨rfl, by decide, by decide⟩

/-- Claim C2, amended: a request body failing input validation is answered
422; every body passing validation is answered either 200 with a validated
body or 500 with the fixed detail message — no other status occurs. -/
theorem route_status_characterization (body : Json) (keyPresent : Bool)
    (model : List Char → ModelOutcome) :
    (parseAnalysisRequest body = none ∧
      (api_route body keyPresent model).1 = HttpResponse.failure 422 validationDetail) ∨
    ((∃ a, parseAnalysisRequest body = some a) ∧
      ((∃ r, (api_route body keyPresent model).1 = HttpResponse.success r) ∨
        (api_route body keyPresent model).1 = HttpResponse.failure 500 genericDetail)) := by
  cases hpa : parseAnalysisRequest body with
  | none => exact Or.inl ⟨rfl, by simp [api_route, hpa]⟩
  | some a =>
    refine Or.inr ⟨⟨a, rfl⟩, ?_⟩
    have hroute : api_route body keyPresent model = find_rera_listings keyPresent a model := by
      simp [api_route, hpa]
    rw [hroute]
    cases keyPresent with
    | false => exact Or.inr rfl
    | true =>
      cases hm : model (buildPrompt a schemaJson) with
      | raise msg => exact Or.inr (by simp [find_rera_listings, hm])
      | reply text =>
        cases hp : parseJsonTop (sanitize text) with
        | none => exact Or.inr (by simp [find_rera_listings, hm, hp])
        | some j =>
          cases hv : validateResponse j with
          | none => exact Or.inr (by simp [find_rera_listings, hm, hp, hv])
          | some r => exact Or.inl ⟨r, by simp [find_rera_listings, hm, hp, hv]⟩

/-- Claim C3: a model reply that parses as JSON but whose listings array
contains an object missing one of the four required fields makes the endpoint
answer 500 with the fixed detail — never a 200 with a partial object. -/
theorem missing_required_field_500 (keyPresent : Bool) (address text : List Char)
    (fields : List (List Char × Json)) (items : List Json)
    (hparse : parseJsonTop (sanitize text) = some (Json.obj fields))
    (hlist : lookupField fields listingsKey = some (Json.arr items))
    (hmiss : ∃ item ∈ items, ∃ f, item = Json.obj f ∧
      (lookupField f projectNameKey = none ∨ lookupField f developerKey = none ∨
       lookupField f detailsKey = none ∨ lookupField f sourceUrlKey = none)) :
    (find_rera_listings keyPresent address (fun _ => ModelOutcome.reply text)).1
      = HttpResponse.failure 500 genericDetail := by
  obtain ⟨item, hmem, f, rfl, hdisj⟩ := hmiss
  have hv : validateResponse (Json.obj fields) = none := by
    have hl : validateListings items = none :=
      validateListings_none hmem (validateListing_obj_none f hdisj)
    simp [validateResponse, hlist, hl]
  cases keyPresent with
  | false => rfl
  | true => simp [find_rera_listings, hparse, hv]

/-- Witness for C3: a stubbed reply whose single listing lacks `source_url`. -/
theorem missing_required_field_500_witness :
    (find_rera_listings true erodeAddress (fun _ => ModelOutcome.reply missingFieldReply)).1
      = HttpResponse.failure 500 genericDetail :=
  missing_required_field_500 true erodeAddress missingFieldReply
    [(listingsKey, Json.arr [Json.obj [(projectNameKey, Json.str ("X".toList)),
      (developerKey, Json.str ("Y".toList)), (detailsKey, Json.str ("Z".toList))]])]
    [Json.obj [(projectNameKey, Json.str ("X".toList)),
      (developerKey, Json.str ("Y".toList)), (detailsKey, Json.str ("Z".toList))]]
    rfl rfl
    ⟨Json.obj [(projectNameKey, Json.str ("X".toList)),
      (developerKey, Json.str ("Y".toList)), (detailsKey, Json.str ("Z".toList))],
      by simp,
      [(projectNameKey, Json.str ("X".toList)), (developerKey, Json.str ("Y".toList)),
        (detailsKey, Json.str ("Z".toList))],
      rfl, Or.inr (Or.inr (Or.inr rfl))⟩

/-- Claim C4: a request body without the `address` field is rejected by the
validation layer with an error response, and the external model is never
invoked (the invocation flag stays false). -/
theorem missing_address_not_invoked (fields : List (List Char × Json))
    (keyPresent : Bool) (model : List Char → ModelOutcome)
    (h : lookupField fields addressKey = none) :
    api_route (Json.obj fields) keyPresent model
      = (HttpResponse.failure 422 validationDetail, false) := by
  have hpa : parseAnalysisRequest (Json.obj fields) = none := by
    simp [parseAnalysisRequest, h]
  simp [api_route, hpa]

/-- Witness for C4 at the empty request body. -/
theorem missing_address_not_invoked_witness :
    api_route (Json.obj []) true (fun _ => ModelOutcome.reply stubReply)
      = (HttpResponse.failure 422 validationDetail, false) :=
  missing_address_not_invoked [] true (fun _ => ModelOutcome.reply stubReply) rfl

/-- Claim C5: every failure inside the handler — missing API key, an SDK
exception of any message, a reply that fails JSON parsing, a reply that fails
schema validation — produces exactly the 500 response with the fixed generic
detail; the underlying exception content never reaches the response. -/
theorem uniform_500_on_failures :
    (∀ (address : List Char) (model : List Char → ModelOutcome),
      find_rera_listings false address model
        = (HttpResponse.failure 500 genericDetail, false)) ∧
    (∀ (address message : List Char),
      find_rera_listings true address (fun _ => ModelOutcome.raise message)
        = (HttpResponse.failure 500 genericDetail, true)) ∧
    (∀ (address text : List Char), parseJsonTop (sanitize text) = none →
      find_rera_listings true address (fun _ => ModelOutcome.reply text)
        = (HttpResponse.failure 500 genericDetail, true)) ∧
    (∀ (address text : List Char) (j : Json), parseJsonTop (sanitize text) = some j →
      validateResponse j = none →
      find_rera_listings true address (fun _ => ModelOutcome.reply text)
        = (HttpResponse.failure 500 genericDetail, true)) := by
  refine ⟨fun _ _ => rfl, fun _ _ => rfl, ?_, ?_⟩
  · intro address text hp
    simp [find_rera_listings, hp]
  · intro address text j hp hv
    simp [find_rera_listings, hp, hv]

/-- Witness for C5: a reply that is not JSON yields the fixed 500. -/
theorem uniform_500_witness :
    find_rera_listings true erodeAddress (fun _ => ModelOutcome.reply ("not json".toList))
      = (HttpResponse.failure 500 genericDetail, true) :=
  uniform_500_on_failures.2.2.1 erodeAddress ("not json".toList) rfl

/-- Claim C6: a reply that is valid JSON whose listings all carry the four
required string fields — possibly among extra fields, and possibly with extra
top-level fields — validates successfully and the endpoint answers 200 with
exactly the extracted listings. -/
theorem extra_fields_ignored (address text : List Char)
    (fields : List (List Char × Json)) (items : List Json) (rs : List ReraListing)
    (hparse : parseJsonTop (sanitize text) = some (Json.obj fields))
    (hlist : lookupField fields listingsKey = some (Json.arr items))
    (hall : List.Forall₂ (fun item r => ∃ f, item = Json.obj f ∧
      lookupField f projectNameKey = some (Json.str r.project_name) ∧
      lookupField f developerKey = some (Json.str r.developer) ∧
      lookupField f detailsKey = some (Json.str r.details) ∧
      lookupField f sourceUrlKey = some (Json.str r.source_url)) items rs) :
    find_rera_listings true address (fun _ => ModelOutcome.reply text)
      = (HttpResponse.success ⟨rs⟩, true) := by
  have hv : validateResponse (Json.obj fields) = some ⟨rs⟩ := by
    simp [validateResponse, hlist, validateListings_forall2 hall]
  simp [find_rera_listings, hparse, hv]

/-- Witness for C6: a reply with an extra listing field and an extra
top-level field still succeeds. -/
theorem extra_fields_ignored_witness :
    find_rera_listings true erodeAddress (fun _ => ModelOutcome.reply extraFieldsReply)
      = (HttpResponse.success stubResponse, true) :=
  extra_fields_ignored erodeAddress extraFieldsReply
    [(listingsKey, Json.arr [Json.obj [(projectNameKey, Json.str ("X".toList)),
      (developerKey, Json.str ("Y".toList)), (detailsKey, Json.str ("Z".toList)),
      (sourceUrlKey, Json.str ("http://a".toList)),
      (("rera_id".toList), Json.str ("R1".toList))]]),
     (("note".toList), Json.str ("extra".toList))]
    [Json.obj [(projectNameKey, Json.str ("X".toList)),
      (developerKey, Json.str ("Y".toList)), (detailsKey, Json.str ("Z".toList)),
      (sourceUrlKey, Json.str ("http://a".toList)),
      (("rera_id".toList), Json.str ("R1".toList))]]
    stubResponse.listings
    rfl rfl
    (List.Forall₂.cons
      ⟨[(projectNameKey, Json.str ("X".toList)),
        (developerKey, Json.str ("Y".toList)), (detailsKey, Json.str ("Z".toList)),
        (sourceUrlKey, Json.str ("http://a".toList)),
        (("rera_id".toList), Json.str ("R1".toList))],
       rfl, rfl, rfl, rfl, rfl⟩
      List.Forall₂.nil)

/-- Claim C7: with the address of the spec example and the stubbed model
reply, the endpoint answers 200 with exactly that single listing, and the
serialized response body is exactly the parsed stub structure. -/
theorem end_to_end_exact :
    find_rera_listings true erodeAddress (fun _ => ModelOutcome.reply stubReply)
      = (HttpResponse.success stubResponse, true) ∧
    parseJsonTop stubReply = some (reraResponseToJson stubResponse) :=
  ⟨rfl, rfl⟩

/-- Claim C8: with the API key absent from the environment, every request
fails at request time with the fixed 500 before the model is invoked, while
the health endpoint still answers 200 with its constant body. -/
theorem missing_key_request_time :
    (∀ (address : List Char) (model : List Char → ModelOutcome),
      find_rera_listings false address model
        = (HttpResponse.failure 500 genericDetail, false)) ∧
    read_root = (200, Json.obj [(("status".toList),
      Json.str ("GeoValuate AI API (Simple RERA Search) is running".toList))]) :=
  ⟨fun _ _ => rfl, rfl⟩

/-- Claim C9, counterexample: an OK JSON response whose body is an object
without a `listings` property settles with `listings` set to `undefined` and
no error — neither of the two advertised end states. -/
theorem client_two_state_refuted :
    ¬ (((∃ items : List Json,
          (handleAnalyze ("a".toList) clientInit
            (FetchOutcome.respond true (some (Json.obj [])))).1.listings
            = some (Json.arr items) ∧
          items.all (fun it => (validateListing it).isSome) = true) ∧
        (handleAnalyze ("a".toList) clientInit
          (FetchOutcome.respond true (some (Json.obj [])))).1.error = none) ∨
       (handleAnalyze ("a".toList) clientInit
         (FetchOutcome.respond true (some (Json.obj [])))).1.error
         = some fetchErrorMsg) := by
  have hstate : (handleAnalyze ("a".toList) clientInit
      (FetchOutcome.respond true (some (Json.obj [])))).1
      = ⟨false, none, none⟩ := rfl
  intro h
  rcases h with ⟨⟨items, hl, _⟩, _⟩ | he
  · rw [hstate] at hl
    exact Option.noConfusion hl
  · rw [hstate] at he
    exact Option.noConfusion he

/-- Claim C9, amended: with a non-empty selected place the handler issues
exactly one request, always clears the busy flag, and settles either by
storing the value of the response body's `listings` property with no error
(for an OK response with a JSON object body — the typed listings array
whenever the body has the backend's response shape) or by setting the fixed
error string with the listings left cleared. -/
theorem client_settlement (place : List Char) (st : ClientState) (f : FetchOutcome)
    (hplace : place.isEmpty = false) :
    (handleAnalyze place st f).2 = 1 ∧
    (handleAnalyze place st f).1.isAnalyzing = false ∧
    ((∃ body lv, f = FetchOutcome.respond true (some body) ∧ jsGetListings body = some lv ∧
        (handleAnalyze place st f).1 = ⟨false, lv, none⟩) ∨
      (handleAnalyze place st f).1 = ⟨false, some (Json.arr []), some fetchErrorMsg⟩) ∧
    (∀ (rs : List ReraListing) (body : Json),
      f = FetchOutcome.respond true (some body) →
      body = reraResponseToJson ⟨rs⟩ →
      (handleAnalyze place st f).1
        = ⟨false, some (Json.arr (rs.map reraListingToJson)), none⟩) := by
  have h4 : ∀ (rs : List ReraListing) (body : Json),
      f = FetchOutcome.respond true (some body) →
      body = reraResponseToJson ⟨rs⟩ →
      (handleAnalyze place st f).1
        = ⟨false, some (Json.arr (rs.map reraListingToJson)), none⟩ := by
    intro rs body hf hb
    subst hf
    subst hb
    simp [handleAnalyze, hplace, jsGetListings, reraResponseToJson, lookupField]
  refine ⟨?_, ?_, ?_, h4⟩ <;> clear h4
  case _ =>
    cases f with
    | reject => simp [handleAnalyze, hplace]
    | respond ok body =>
      cases ok with
      | false => cases body <;> simp [handleAnalyze, hplace]
      | true =>
        cases body with
        | none => simp [handleAnalyze, hplace]
        | some b =>
          simp only [handleAnalyze, hplace]
          cases hj : jsGetListings b <;> simp [hj]
  case _ =>
    cases f with
    | reject => simp [handleAnalyze, hplace]
    | respond ok body =>
      cases ok with
      | false => cases body <;> simp [handleAnalyze, hplace]
      | true =>
        cases body with
        | none => simp [handleAnalyze, hplace]
        | some b =>
          simp only [handleAnalyze, hplace]
          cases hj : jsGetListings b <;> simp [hj]
  case _ =>
    cases f with
    | reject => exact Or.inr (by simp [handleAnalyze, hplace])
    | respond ok body =>
      cases ok with
      | false => exact Or.inr (by simp [handleAnalyze, hplace])
      | true =>
        cases body with
        | none => exact Or.inr (by simp [handleAnalyze, hplace])
        | some b =>
          cases hj : jsGetListings b with
          | none => exact Or.inr (by simp [handleAnalyze, hplace, hj])
          | some lv =>
            exact Or.inl ⟨b, lv, rfl, hj, by simp [handleAnalyze, hplace, hj]⟩

/-- Witness for C9 at a rejected fetch. -/
theorem client_settlement_witness :
    (handleAnalyze ("a".toList) clientInit FetchOutcome.reject).2 = 1 ∧
    (handleAnalyze ("a".toList) clientInit FetchOutcome.reject).1.isAnalyzing = false ∧
    ((∃ body lv, FetchOutcome.reject = FetchOutcome.respond true (some body) ∧
        jsGetListings body = some lv ∧
        (handleAnalyze ("a".toList) clientInit FetchOutcome.reject).1 = ⟨false, lv, none⟩) ∨
      (handleAnalyze ("a".toList) clientInit FetchOutcome.reject).1
        = ⟨false, some (Json.arr []), some fetchErrorMsg⟩) ∧
    (∀ (rs : List ReraListing) (body : Json),
      FetchOutcome.reject = FetchOutcome.respond true (some body) →
      body = reraResponseToJson ⟨rs⟩ →
      (handleAnalyze ("a".toList) clientInit FetchOutcome.reject).1
        = ⟨false, some (Json.arr (rs.map reraListingToJson)), none⟩) :=
  client_settlement ("a".toList) clientInit FetchOutcome.reject rfl

/-- Claim C10: a sanitized reply that parses to an object whose `listings`
is the empty array is a success: the endpoint answers 200 with the empty
listings body, whose serialization is exactly that object. -/
theorem empty_listings_ok (address text : List Char)
    (h : parseJsonTop (sanitize text) = some (Json.obj [(listingsKey, Json.arr [])])) :
    find_rera_listings true address (fun _ => ModelOutcome.reply text)
      = (HttpResponse.success ⟨[]⟩, true) ∧
    reraResponseToJson ⟨[]⟩ = Json.obj [(listingsKey, Json.arr [])] := by
  constructor
  · have hv : validateResponse (Json.obj [(listingsKey, Json.arr [])]) = some ⟨[]⟩ := rfl
    simp [find_rera_listings, h, hv]
  · rfl

/-- Witness for C10 at the concrete empty reply. -/
theorem empty_listings_ok_witness :
    find_rera_listings true erodeAddress (fun _ => ModelOutcome.reply emptyListingsReply)
      = (HttpResponse.success ⟨[]⟩, true) ∧
    reraResponseToJson ⟨[]⟩ = Json.obj [(listingsKey, Json.arr [])] :=
  empty_listings_ok erodeAddress emptyListingsReply rfl
